import Mathlib

set_option maxHeartbeats 1000000

/-!
Verification of the zookeeper-exporter scrape pipeline (`getMetrics` and its
helpers in `main.go`).  Strings are modelled as lists of characters so the
Go standard-library string operations can be given as executable recursive
functions.  Network effects are modelled as an explicit per-target outcome
record; the snapshot map is modelled as the emission-ordered list of
key/value writes with a last-write-wins lookup (the semantics of a Go map).
-/

abbrev Str := List Char

/-- value string `"0"` -/
def s0 : Str := "0".data

/-- value string `"1"` -/
def s1 : Str := "1".data

/-- the expected `ruok` success token -/
def imokStr : Str := "imok".data

/-- the exact non-serving first line recognised by `getMetrics` -/
def notServingMsg : Str := "This ZooKeeper instance is not currently serving requests".data

/-- the constant `cmdNotExecutedSffx` from `main.go` -/
def cmdSffx : Str := "is not executed because it is not in the whitelist.".data

def upName : Str := "zk_up".data

def leaderName : Str := "zk_server_leader".data

def ruokName : Str := "zk_ruok".data

def versionName : Str := "zk_version".data

def peerStateName : Str := "zk_peer_state".data

def serverStateKey : Str := "zk_server_state".data

def leaderVal : Str := "leader".data

def zkHostEq : Str := "zk_host=".data

def versionEq : Str := ",version=".data

def stateEq : Str := ",state=".data

def mntrCmd : Str := "mntr".data

def ruokCmd : Str := "ruok".data

/-- one character of Go `%q` quoting (restricted to the backslash and
double-quote escapes; other characters are kept as-is) -/
def escUnit (c : Char) : Str :=
  if c = '\\' then ['\\', '\\'] else if c = '"' then ['\\', '"'] else [c]

/-- body of Go `%q` quoting -/
def esc : Str → Str
  | [] => []
  | c :: rest => escUnit c ++ esc rest

/-- Go `fmt.Sprintf("%q", s)` -/
def quoteStr (s : Str) : Str := '"' :: esc s ++ ['"']

/-- Go `fmt.Sprintf("zk_host=%q", h)` -/
def hostLabel (h : Str) : Str := zkHostEq ++ quoteStr h

/-- Go `fmt.Sprintf("%s{%s}", n, hostLabel)` -/
def braced (n h : Str) : Str := n ++ '\x7b' :: hostLabel h ++ ['\x7d']

/-- Go `fmt.Sprintf("zk_version{%s,version=%q}", hostLabel, v)` -/
def keyVersion (h v : Str) : Str :=
  versionName ++ '\x7b' :: hostLabel h ++ versionEq ++ quoteStr v ++ ['\x7d']

/-- Go `fmt.Sprintf("zk_peer_state{%s,state=%q}", hostLabel, v)` -/
def keyPeerState (h v : Str) : Str :=
  peerStateName ++ '\x7b' :: hostLabel h ++ stateEq ++ quoteStr v ++ ['\x7d']

/-- Go `strings.Split(s, sep)` for a one-character separator: the result is
always non-empty and splitting the empty string yields `[[]]`. -/
def splitOnChar (sep : Char) : Str → List Str
  | [] => [[]]
  | c :: rest =>
    match splitOnChar sep rest with
    | [] => if c = sep then [[], []] else [[c]]
    | s :: ss => if c = sep then [] :: s :: ss else (c :: s) :: ss

/-- Go `strings.Replace(l, "\t", " ", -1)` -/
def replaceTabs (s : Str) : Str := s.map (fun c => if c = '\t' then ' ' else c)

/-- Go `strings.ReplaceAll(k, "-", "_")` -/
def hyf2us (s : Str) : Str := s.map (fun c => if c = '-' then '_' else c)

def isDigitCh (c : Char) : Bool := decide ('0' ≤ c) && decide (c ≤ '9')

/-- maximal run of leading decimal digits and the remainder -/
def takeDigits : Str → Str × Str
  | [] => ([], [])
  | c :: rest =>
    if isDigitCh c then
      let p := takeDigits rest
      (c :: p.1, p.2)
    else ([], c :: rest)

/-- The capture of `versionRE = ^([0-9]+\.[0-9]+\.[0-9]+).*$` when the
regular expression matches `v` (Go semantics: `.` does not match a newline
and `$` anchors at the end of the text, so the match succeeds exactly when
`v` starts with `d+.d+.d+` and the remainder has no newline). -/
def semverCap (v : Str) : Option Str :=
  if (takeDigits v).1 = [] then none
  else
    match (takeDigits v).2 with
    | '.' :: r2 =>
      if (takeDigits r2).1 = [] then none
      else
        match (takeDigits r2).2 with
        | '.' :: r4 =>
          if (takeDigits r4).1 = [] then none
          else if (takeDigits r4).2.contains '\n' then none
          else some ((takeDigits v).1 ++ '.' :: (takeDigits r2).1 ++ '.' :: (takeDigits r4).1)
        | _ => none
    | _ => none

/-- Go `versionRE.ReplaceAllString(v, "$1")`: the capture when the anchored
pattern matches, otherwise the input unchanged. -/
def extractVersion (v : Str) : Str := (semverCap v).getD v

/-- whether `pat` begins `s` -/
def strStarts : Str → Str → Bool
  | [], _ => true
  | _ :: _, [] => false
  | p :: ps, c :: cs => p = c && strStarts ps cs

/-- Go `strings.Contains(s, pat)` -/
def containsSub (pat : Str) : Str → Bool
  | [] => pat.isEmpty
  | c :: rest => strStarts pat (c :: rest) || containsSub pat rest

/-- events written to the process log -/
inductive LogEvent where
  | resolveFail (host : Str)
  | connectFail (host : Str)
  | notAllowed (cmd : Str) (label : Str)
deriving DecidableEq

/-- the network-visible outcome of probing one target: whether the address
resolves, whether each of the two dials succeeds, and the full text read by
`sendZookeeperCmd` for each command (an I/O failure after connect surfaces
as whatever partial text was read, typically the empty string) -/
structure TargetOutcome where
  resolves : Bool
  connects : Bool
  mntrResp : Str
  ruokConnects : Bool
  ruokResp : Str
deriving DecidableEq

/-- first line of a response, as `getMetrics` computes it (`lines[0]`;
`strings.Split` never returns an empty slice) -/
def firstLine (s : Str) : Str := (splitOnChar '\n' s).headD []

/-- the `switch kv[0]` body of the per-line loop, on the already split
tokens `k :: rest`; `none` models the Go panic of the out-of-bounds access
`kv[1]` -/
def lineBranches (h k : Str) (rest : List Str) : Option (List (Str × Str)) :=
  if k = serverStateKey then
    match rest with
    | v :: _ => some [(braced leaderName h, if v = leaderVal then s1 else s0)]
    | [] => none
  else if k = versionName then
    match rest with
    | v :: _ => some [(keyVersion h (extractVersion v), s1)]
    | [] => none
  else if k = peerStateName then
    match rest with
    | v :: _ => some [(keyPeerState h v, s1)]
    | [] => none
  else if k = [] then some []
  else
    match rest with
    | v :: _ => some [(braced (hyf2us k) h, v)]
    | [] => none

/-- one iteration of the per-line loop of `getMetrics`: tab normalization,
split on spaces, then the switch -/
def processLine (h : Str) (l : Str) : Option (List (Str × Str)) :=
  match splitOnChar ' ' (replaceTabs l) with
  | [] => none
  | k :: rest => lineBranches h k rest

/-- the whole per-line loop over the split `mntr` response -/
def parseLines (h : Str) : List Str → Option (List (Str × Str))
  | [] => some []
  | l :: ls =>
    match processLine h l, parseLines h ls with
    | some e, some r => some (e ++ r)
    | _, _ => none

/-- the `ruok` probe tail of the target loop: the `zk_ruok` entry and any
log line it produces -/
def ruokStep (h : Str) (o : TargetOutcome) : (Str × Str) × List LogEvent :=
  if o.ruokConnects then
    if o.ruokResp = imokStr then ((braced ruokName h, s1), [])
    else
      ((braced ruokName h, s0),
        if containsSub cmdSffx o.ruokResp then [LogEvent.notAllowed ruokCmd (hostLabel h)] else [])
  else ((braced ruokName h, s0), [])

/-- one iteration of the target loop of `getMetrics`: the entries written
for this target (in write order) and the log lines, or `none` when the
line parser panics -/
def targetEntries (h : Str) (o : TargetOutcome) : Option (List (Str × Str) × List LogEvent) :=
  if o.resolves = false then some ([], [LogEvent.resolveFail h])
  else if o.connects = false then
    some ([(braced upName h, s0)], [LogEvent.connectFail h])
  else
    if firstLine o.mntrResp = notServingMsg then
      some ([(braced upName h, s1), (braced leaderName h, s1)], [])
    else if containsSub cmdSffx (firstLine o.mntrResp) then
      some ([(braced upName h, s0)], [LogEvent.notAllowed mntrCmd (hostLabel h)])
    else
      match parseLines h (splitOnChar '\n' o.mntrResp) with
      | none => none
      | some es =>
        some (es ++ [(ruokStep h o).1, (braced upName h, s1)], (ruokStep h o).2)

/-- the target loop of `getMetrics`, with the per-target network outcomes supplied by `env`:
the ordered list of map writes and the log, or `none` when some target
panics -/
def getMetricsL : List Str → (Str → TargetOutcome) → Option (List (Str × Str) × List LogEvent)
  | [], _ => some ([], [])
  | h :: hs, env =>
    match targetEntries h (env h), getMetricsL hs env with
    | some el, some rl => some (el.1 ++ rl.1, el.2 ++ rl.2)
    | _, _ => none

/-- last-write-wins lookup: the value a Go map holds for `k` after the
writes in `m` were performed in order -/
def lookupLast (m : List (Str × Str)) (k : Str) : Option Str :=
  match m with
  | [] => none
  | kv :: rest =>
    match lookupLast rest k with
    | some v => some v
    | none => if kv.1 = k then some kv.2 else none

/-- right-biased choice used to state the append law of `lookupLast` -/
def olast (x y : Option Str) : Option Str :=
  match y with
  | some v => some v
  | none => x

def allDigits (s : Str) : Bool := s.all isDigitCh

/-- the head of the remainder is not a digit (so a digit run before it is
maximal) -/
def headNonDigit : Str → Bool
  | [] => true
  | c :: _ => !isDigitCh c

/-- number of leading backslashes -/
def countLeadingBS : Str → Nat
  | [] => 0
  | c :: rest => if c = '\\' then countLeadingBS rest + 1 else 0

/-- Scan a reversed string for the opening double quote of a `%q`-quoted
section: the first quote that is followed (in reversed order) by an even
number of backslashes.  Returns the reversed quoted body and the rest. -/
def scanQuoteRev : Str → Option (Str × Str)
  | [] => none
  | c :: rest =>
    if c = '"' ∧ countLeadingBS rest % 2 = 0 then some ([], rest)
    else
      match scanQuoteRev rest with
      | some p => some (c :: p.1, p.2)
      | none => none

/-- inverse of the `%q` escaping -/
def unesc : Str → Str
  | [] => []
  | [c] => [c]
  | c1 :: c2 :: rest => if c1 = '\\' then c2 :: unesc rest else c1 :: unesc (c2 :: rest)

/-- reverse of `"{zk_host="` -/
def revHostMark : Str := ['=', 't', 's', 'o', 'h', '_', 'k', 'z', '\x7b']

/-- reverse of `",version="` -/
def revVersionMark : Str := ['=', 'n', 'o', 'i', 's', 'r', 'e', 'v', ',']

/-- reverse of `",state="` -/
def revStateMark : Str := ['=', 'e', 't', 'a', 't', 's', ',']

/-- read a host out of the reversed remainder `"H"=tsoh_kz{...` -/
def hostOfLabel : Str → Option Str
  | '"' :: r3 =>
    match scanQuoteRev r3 with
    | some p => if strStarts revHostMark p.2 then some (unesc p.1.reverse) else none
    | none => none
  | _ => none

/-- host extraction on a reversed metric key -/
def hostOfRev : Str → Option Str
  | '\x7d' :: '"' :: r2 =>
    match scanQuoteRev r2 with
    | some p =>
      if strStarts revHostMark p.2 then some (unesc p.1.reverse)
      else if strStarts revVersionMark p.2 then hostOfLabel (p.2.drop 9)
      else if strStarts revStateMark p.2 then hostOfLabel (p.2.drop 7)
      else none
    | none => none
  | _ => none

/-- The host a metric key belongs to.  Every key written by the target loop
carries its host inside the `zk_host` label; this parser recovers it, which
makes the key sets of distinct hosts disjoint. -/
def hostOf (k : Str) : Option Str := hostOfRev k.reverse

/-- the final `zk_up` value the target loop records for a target that
resolves -/
def upVal (o : TargetOutcome) : Str :=
  if o.connects = false then s0
  else if firstLine o.mntrResp = notServingMsg then s1
  else if containsSub cmdSffx (firstLine o.mntrResp) then s0
  else s1

/-! ### Concrete hosts, lines and environments used in witnesses -/

def hostA : Str := "a".data

def hostB : Str := "b".data

def hostH : Str := "h".data

def fooLine : Str := "foo".data

def zkXyzLine : Str := "zk_xyz".data

def lineDotted : Str := "a.b c d".data

def dotKey : Str := "a.b".data

def underKey : Str := "a_b".data

def cTok : Str := "c".data

def cdTok : Str := "c d".data

def verLine : Str := "zk_version\t3.4.10-abc123, built on 01/01/2019".data

def verTok : Str := "3.4.10-abc123,".data

def verCaptured : Str := "3.4.10".data

def mntrSample : Str := "zk_avg_latency 0".data

def oNotServing : TargetOutcome := ⟨true, true, notServingMsg, false, []⟩

def oWhitelist : TargetOutcome := ⟨true, true, cmdSffx, false, []⟩

def oEmpty : TargetOutcome := ⟨true, true, [], true, imokStr⟩

def envGood : Str → TargetOutcome := fun _ => ⟨true, true, mntrSample, true, imokStr⟩

def envResolveFail : Str → TargetOutcome := fun _ => ⟨false, true, [], true, imokStr⟩

def envMixed : Str → TargetOutcome :=
  fun x => if x = hostB then ⟨true, false, [], false, []⟩ else envGood x

def snapC1 : List (Str × Str) × List LogEvent := (getMetricsL [hostA] envGood).getD ([], [])

def snap71 : List (Str × Str) × List LogEvent :=
  (getMetricsL [hostA, hostB] envGood).getD ([], [])

def snap72 : List (Str × Str) × List LogEvent :=
  (getMetricsL [hostA, hostB] envMixed).getD ([], [])

def snap82 : List (Str × Str) × List LogEvent :=
  (getMetricsL [hostB, hostA] envGood).getD ([], [])

def hyLine : Str := "zk-x 1 2".data

def hyKey : Str := "zk-x".data

def twoTok : Str := "2".data

def verRest : List Str := ["built".data, "on".data, "01/01/2019".data]

/-! ### String lemmas -/

theorem strStarts_self_append : ∀ (p t : Str), strStarts p (p ++ t) = true
  | [], _ => rfl
  | c :: ps, t => by simp [strStarts, strStarts_self_append ps t]

theorem strStarts_append_of_le : ∀ (p a t : Str), p.length ≤ a.length →
    strStarts p (a ++ t) = strStarts p a
  | [], _, _, _ => rfl
  | _ :: _, [], _, h => by simp at h
  | c :: ps, b :: bs, t, h => by
    simp only [List.cons_append, strStarts, List.append_eq]
    rw [strStarts_append_of_le ps bs t (by simpa using h)]

theorem esc_append : ∀ (a b : Str), esc (a ++ b) = esc a ++ esc b
  | [], _ => rfl
  | c :: a, b => by simp [esc, esc_append a b]

theorem countLeadingBS_cons (c : Char) (t : Str) :
    countLeadingBS (c :: t) = if c = '\\' then countLeadingBS t + 1 else 0 := rfl

theorem scanQuoteRev_cons (c : Char) (rest : Str) :
    scanQuoteRev (c :: rest) =
      if c = '"' ∧ countLeadingBS rest % 2 = 0 then some ([], rest)
      else
        match scanQuoteRev rest with
        | some p => some (c :: p.1, p.2)
        | none => none := rfl

theorem unesc_cons2 (c1 c2 : Char) (rest : Str) :
    unesc (c1 :: c2 :: rest) =
      if c1 = '\\' then c2 :: unesc rest else c1 :: unesc (c2 :: rest) := rfl

theorem esc_backslash : esc ['\\'] = ['\\', '\\'] := rfl

theorem esc_quote : esc ['"'] = ['\\', '"'] := rfl

theorem esc_other (c : Char) (h1 : ¬c = '\\') (h2 : ¬c = '"') : esc [c] = [c] := by
  simp [esc, escUnit, h1, h2]

theorem countLeadingBS_esc (s t : Str) :
    countLeadingBS ((esc s).reverse ++ '"' :: t) % 2 = 0 := by
  induction s using List.reverseRecOn with
  | nil => simp [esc, countLeadingBS]
  | append_singleton s c ih =>
    rw [esc_append]
    by_cases hc : c = '\\'
    · subst hc
      rw [esc_backslash, List.reverse_append]
      have e2 : (['\\', '\\'] : Str).reverse = ['\\', '\\'] := rfl
      rw [e2, List.append_assoc, List.cons_append, List.cons_append, List.nil_append,
        countLeadingBS_cons, if_pos rfl, countLeadingBS_cons, if_pos rfl]
      omega
    · by_cases hq : c = '"'
      · subst hq
        rw [esc_quote, List.reverse_append]
        have e2 : (['\\', '"'] : Str).reverse = ['"', '\\'] := rfl
        rw [e2, List.append_assoc, List.cons_append, List.cons_append, List.nil_append,
          countLeadingBS_cons, if_neg (by decide)]
      · rw [esc_other c hc hq, List.reverse_append]
        have e2 : ([c] : Str).reverse = [c] := rfl
        rw [e2, List.append_assoc, List.cons_append, List.nil_append,
          countLeadingBS_cons, if_neg hc]

theorem scanQuoteRev_esc (s t : Str) (ht : countLeadingBS t % 2 = 0) :
    scanQuoteRev ((esc s).reverse ++ '"' :: t) = some ((esc s).reverse, t) := by
  induction s using List.reverseRecOn with
  | nil =>
    simp only [esc, List.reverse_nil, List.nil_append]
    rw [scanQuoteRev_cons, if_pos ⟨rfl, ht⟩]
  | append_singleton s c ih =>
    rw [esc_append]
    by_cases hc : c = '\\'
    · subst hc
      rw [esc_backslash, List.reverse_append]
      have e2 : (['\\', '\\'] : Str).reverse = ['\\', '\\'] := rfl
      rw [e2, List.append_assoc, List.cons_append, List.cons_append, List.nil_append,
        scanQuoteRev_cons, if_neg (by simp), scanQuoteRev_cons, if_neg (by simp), ih]
      rfl
    · by_cases hq : c = '"'
      · subst hq
        rw [esc_quote, List.reverse_append]
        have e2 : (['\\', '"'] : Str).reverse = ['"', '\\'] := rfl
        rw [e2, List.append_assoc, List.cons_append, List.cons_append, List.nil_append]
        have hcnt := countLeadingBS_esc s t
        rw [scanQuoteRev_cons, if_neg (by
          rintro ⟨-, h2⟩
          rw [countLeadingBS_cons, if_pos rfl] at h2
          omega)]
        rw [scanQuoteRev_cons, if_neg (by simp), ih]
        rfl
      · rw [esc_other c hc hq, List.reverse_append]
        have e2 : ([c] : Str).reverse = [c] := rfl
        rw [e2, List.append_assoc, List.cons_append, List.nil_append,
          scanQuoteRev_cons, if_neg (by simp [hq]), ih]
        rfl

theorem esc_ne_nil (c : Char) (s : Str) : esc (c :: s) ≠ [] := by
  simp only [esc, escUnit]
  split_ifs <;> simp

theorem unesc_esc : ∀ (s : Str), unesc (esc s) = s
  | [] => rfl
  | c :: s => by
    by_cases h1 : c = '\\'
    · subst h1
      have e : esc ('\\' :: s) = '\\' :: '\\' :: esc s := rfl
      rw [e, unesc_cons2, if_pos rfl, unesc_esc s]
    · by_cases h2 : c = '"'
      · subst h2
        have e : esc ('"' :: s) = '\\' :: '"' :: esc s := by
          simp [esc, escUnit, h1]
        rw [e, unesc_cons2, if_pos rfl, unesc_esc s]
      · have e : esc (c :: s) = c :: esc s := by
          simp [esc, escUnit, h1, h2]
        rw [e]
        cases hs : esc s with
        | nil =>
          cases s with
          | nil => simp [unesc]
          | cons d ds => exact absurd hs (esc_ne_nil d ds)
        | cons d ds =>
          rw [unesc_cons2, if_neg h1, ← hs, unesc_esc s]

/-! ### Host extraction lemmas: every emitted key names its host -/

theorem hostOfRev_cons (r2 : Str) :
    hostOfRev ('\x7d' :: '"' :: r2) =
      match scanQuoteRev r2 with
      | some p =>
        if strStarts revHostMark p.2 then some (unesc p.1.reverse)
        else if strStarts revVersionMark p.2 then hostOfLabel (p.2.drop 9)
        else if strStarts revStateMark p.2 then hostOfLabel (p.2.drop 7)
        else none
      | none => none := rfl

theorem hostOfLabel_cons (r3 : Str) :
    hostOfLabel ('"' :: r3) =
      match scanQuoteRev r3 with
      | some p => if strStarts revHostMark p.2 then some (unesc p.1.reverse) else none
      | none => none := rfl

theorem cnt_hostMark (y : Str) : countLeadingBS (revHostMark ++ y) % 2 = 0 := by
  have e : revHostMark ++ y = '=' :: (['t', 's', 'o', 'h', '_', 'k', 'z', '\x7b'] ++ y) := rfl
  rw [e, countLeadingBS_cons, if_neg (by decide)]

theorem cnt_versionMark (y : Str) : countLeadingBS (revVersionMark ++ y) % 2 = 0 := by
  have e : revVersionMark ++ y = '=' :: (['n', 'o', 'i', 's', 'r', 'e', 'v', ','] ++ y) := rfl
  rw [e, countLeadingBS_cons, if_neg (by decide)]

theorem cnt_stateMark (y : Str) : countLeadingBS (revStateMark ++ y) % 2 = 0 := by
  have e : revStateMark ++ y = '=' :: (['e', 't', 'a', 't', 's', ','] ++ y) := rfl
  rw [e, countLeadingBS_cons, if_neg (by decide)]

theorem ssHV (y : Str) : strStarts revHostMark (revVersionMark ++ y) = false := by
  rw [strStarts_append_of_le _ _ _ (by decide)]
  decide

theorem ssHS (y : Str) : strStarts revHostMark (revStateMark ++ y) = false := by
  have e1 : revHostMark = '=' :: 't' :: ['s', 'o', 'h', '_', 'k', 'z', '\x7b'] := rfl
  have e2 : revStateMark ++ y = '=' :: 'e' :: (['t', 'a', 't', 's', ','] ++ y) := rfl
  rw [e1, e2]
  have hne : ('t' : Char) ≠ 'e' := by decide
  simp [strStarts, hne]

theorem ssVS (y : Str) : strStarts revVersionMark (revStateMark ++ y) = false := by
  have e1 : revVersionMark = '=' :: 'n' :: ['o', 'i', 's', 'r', 'e', 'v', ','] := rfl
  have e2 : revStateMark ++ y = '=' :: 'e' :: (['t', 'a', 't', 's', ','] ++ y) := rfl
  rw [e1, e2]
  have hne : ('n' : Char) ≠ 'e' := by decide
  simp [strStarts, hne]

theorem braced_rev (n h : Str) :
    (braced n h).reverse =
      '\x7d' :: '"' :: ((esc h).reverse ++ '"' :: (revHostMark ++ n.reverse)) := by
  have hz : zkHostEq.reverse ++ '\x7b' :: n.reverse = revHostMark ++ n.reverse := rfl
  simp only [braced, hostLabel, quoteStr, List.reverse_append, List.reverse_cons,
    List.reverse_nil, List.nil_append, List.cons_append, List.append_assoc, List.append_nil]
  rw [← hz]

theorem hostOf_braced (n h : Str) : hostOf (braced n h) = some h := by
  rw [hostOf, braced_rev, hostOfRev_cons, scanQuoteRev_esc h _ (cnt_hostMark _)]
  simp [strStarts_self_append, List.reverse_reverse, unesc_esc]

theorem keyVersion_rev (h v : Str) :
    (keyVersion h v).reverse =
      '\x7d' :: '"' :: ((esc v).reverse ++ '"' ::
        (revVersionMark ++ '"' :: ((esc h).reverse ++ '"' ::
          (revHostMark ++ versionName.reverse)))) := by
  have hz : zkHostEq.reverse ++ '\x7b' :: versionName.reverse
      = revHostMark ++ versionName.reverse := rfl
  have hv : versionEq.reverse = revVersionMark := rfl
  simp only [keyVersion, hostLabel, quoteStr, List.reverse_append, List.reverse_cons,
    List.reverse_nil, List.nil_append, List.cons_append, List.append_assoc, List.append_nil]
  rw [← hz, ← hv]

theorem keyPeerState_rev (h v : Str) :
    (keyPeerState h v).reverse =
      '\x7d' :: '"' :: ((esc v).reverse ++ '"' ::
        (revStateMark ++ '"' :: ((esc h).reverse ++ '"' ::
          (revHostMark ++ peerStateName.reverse)))) := by
  have hz : zkHostEq.reverse ++ '\x7b' :: peerStateName.reverse
      = revHostMark ++ peerStateName.reverse := rfl
  have hs : stateEq.reverse = revStateMark := rfl
  simp only [keyPeerState, hostLabel, quoteStr, List.reverse_append, List.reverse_cons,
    List.reverse_nil, List.nil_append, List.cons_append, List.append_assoc, List.append_nil]
  rw [← hz, ← hs]

theorem hostOf_keyVersion (h v : Str) : hostOf (keyVersion h v) = some h := by
  rw [hostOf, keyVersion_rev, hostOfRev_cons,
    scanQuoteRev_esc v _ (cnt_versionMark _)]
  have hd : (revVersionMark ++ '"' :: ((esc h).reverse ++ '"' ::
      (revHostMark ++ versionName.reverse))).drop 9
      = '"' :: ((esc h).reverse ++ '"' :: (revHostMark ++ versionName.reverse)) :=
    List.drop_left' (by decide)
  simp only [ssHV, Bool.false_eq_true, if_false, strStarts_self_append, if_true, hd,
    hostOfLabel_cons, scanQuoteRev_esc h _ (cnt_hostMark _), List.reverse_reverse, unesc_esc]

theorem hostOf_keyPeerState (h v : Str) : hostOf (keyPeerState h v) = some h := by
  rw [hostOf, keyPeerState_rev, hostOfRev_cons,
    scanQuoteRev_esc v _ (cnt_stateMark _)]
  have hd : (revStateMark ++ '"' :: ((esc h).reverse ++ '"' ::
      (revHostMark ++ peerStateName.reverse))).drop 7
      = '"' :: ((esc h).reverse ++ '"' :: (revHostMark ++ peerStateName.reverse)) :=
    List.drop_left' (by decide)
  simp only [ssHS, ssVS, Bool.false_eq_true, if_false, strStarts_self_append, if_true, hd,
    hostOfLabel_cons, scanQuoteRev_esc h _ (cnt_hostMark _), List.reverse_reverse, unesc_esc]

/-! ### Snapshot map lemmas -/

theorem lookupLast_cons (kv : Str × Str) (m : List (Str × Str)) (k : Str) :
    lookupLast (kv :: m) k
      = olast (if kv.1 = k then some kv.2 else none) (lookupLast m k) := by
  rw [lookupLast]
  cases lookupLast m k <;> rfl

theorem olast_assoc (x y z : Option Str) : olast (olast x y) z = olast x (olast y z) := by
  cases z <;> cases y <;> rfl

theorem olast_none_right (x : Option Str) : olast x none = x := rfl

theorem lookupLast_append (a b : List (Str × Str)) (k : Str) :
    lookupLast (a ++ b) k = olast (lookupLast a k) (lookupLast b k) := by
  induction a with
  | nil =>
    rw [List.nil_append, lookupLast]
    cases lookupLast b k <;> rfl
  | cons kv a ih =>
    rw [List.cons_append, lookupLast_cons, ih, lookupLast_cons, olast_assoc]

theorem lookupLast_eq_none (e : List (Str × Str)) (h0 k : Str)
    (hall : ∀ p ∈ e, hostOf p.1 = some h0) (hk : hostOf k ≠ some h0) :
    lookupLast e k = none := by
  induction e with
  | nil => rfl
  | cons p e ih =>
    rw [lookupLast_cons, ih (fun q hq => hall q (List.mem_cons_of_mem p hq)),
      olast_none_right, if_neg]
    intro hpk
    exact hk (hpk ▸ hall p (List.mem_cons_self p e))

/-! ### Every entry a target writes carries that target's host -/

theorem processLine_eq (h l k : Str) (rest : List Str)
    (hsp : splitOnChar ' ' (replaceTabs l) = k :: rest) :
    processLine h l = lineBranches h k rest := by
  rw [processLine]
  conv_lhs => rw [hsp]

theorem lineBranches_host (h k : Str) (rest : List Str) (es : List (Str × Str))
    (hp : lineBranches h k rest = some es) : ∀ p ∈ es, hostOf p.1 = some h := by
  rw [lineBranches.eq_def] at hp
  split_ifs at hp with h1 h2 h3 h4
  · cases rest with
    | nil => exact absurd hp (by simp)
    | cons v r =>
      simp only [Option.some.injEq] at hp
      subst hp
      intro p hp
      simp only [List.mem_singleton] at hp
      subst hp
      exact hostOf_braced _ _
  · cases rest with
    | nil => exact absurd hp (by simp)
    | cons v r =>
      simp only [Option.some.injEq] at hp
      subst hp
      intro p hp
      simp only [List.mem_singleton] at hp
      subst hp
      exact hostOf_keyVersion _ _
  · cases rest with
    | nil => exact absurd hp (by simp)
    | cons v r =>
      simp only [Option.some.injEq] at hp
      subst hp
      intro p hp
      simp only [List.mem_singleton] at hp
      subst hp
      exact hostOf_keyPeerState _ _
  · simp only [Option.some.injEq] at hp
    subst hp
    intro p hp
    exact absurd hp (List.not_mem_nil p)
  · cases rest with
    | nil => exact absurd hp (by simp)
    | cons v r =>
      simp only [Option.some.injEq] at hp
      subst hp
      intro p hp
      simp only [List.mem_singleton] at hp
      subst hp
      exact hostOf_braced _ _

theorem processLine_host (h l : Str) (es : List (Str × Str))
    (hp : processLine h l = some es) : ∀ p ∈ es, hostOf p.1 = some h := by
  rcases hsp : splitOnChar ' ' (replaceTabs l) with _ | ⟨k, rest⟩
  · rw [processLine, hsp] at hp
    simp at hp
  · rw [processLine_eq h l k rest hsp] at hp
    exact lineBranches_host h k rest es hp

theorem parseLines_host (h : Str) (ls : List Str) (es : List (Str × Str))
    (hp : parseLines h ls = some es) : ∀ p ∈ es, hostOf p.1 = some h := by
  induction ls generalizing es with
  | nil =>
    rw [parseLines] at hp
    simp only [Option.some.injEq] at hp
    subst hp
    intro p hp
    exact absurd hp (List.not_mem_nil p)
  | cons l ls ih =>
    rw [parseLines] at hp
    rcases h1 : processLine h l with _ | e1 <;> rw [h1] at hp
    · exact absurd hp (by simp)
    · rcases h2 : parseLines h ls with _ | e2 <;> rw [h2] at hp
      · exact absurd hp (by simp)
      · simp only [Option.some.injEq] at hp
        subst hp
        intro p hp
        rcases List.mem_append.mp hp with hm | hm
        · exact processLine_host h l e1 h1 p hm
        · exact ih e2 h2 p hm

theorem ruokStep_key (h : Str) (o : TargetOutcome) :
    (ruokStep h o).1.1 = braced ruokName h := by
  rw [ruokStep]
  split_ifs <;> rfl

theorem targetEntries_host (h : Str) (o : TargetOutcome) (e : List (Str × Str))
    (lg : List LogEvent) (he : targetEntries h o = some (e, lg)) :
    ∀ p ∈ e, hostOf p.1 = some h := by
  rw [targetEntries] at he
  split_ifs at he with h1 h2 h3 h4
  · simp only [Option.some.injEq, Prod.mk.injEq] at he
    intro p hp
    rw [← he.1] at hp
    exact absurd hp (List.not_mem_nil p)
  · simp only [Option.some.injEq, Prod.mk.injEq] at he
    intro p hp
    rw [← he.1] at hp
    simp only [List.mem_singleton] at hp
    subst hp
    exact hostOf_braced _ _
  · simp only [Option.some.injEq, Prod.mk.injEq] at he
    intro p hp
    rw [← he.1] at hp
    simp only [List.mem_cons, List.mem_singleton] at hp
    rcases hp with hp | hp | hp
    · subst hp; exact hostOf_braced _ _
    · subst hp; exact hostOf_braced _ _
    · exact absurd hp (List.not_mem_nil p)
  · simp only [Option.some.injEq, Prod.mk.injEq] at he
    intro p hp
    rw [← he.1] at hp
    simp only [List.mem_singleton] at hp
    subst hp
    exact hostOf_braced _ _
  · rcases hpl : parseLines h (splitOnChar '\n' o.mntrResp) with _ | es <;> rw [hpl] at he
    · exact absurd he (by simp)
    · simp only [Option.some.injEq, Prod.mk.injEq] at he
      intro p hp
      rw [← he.1] at hp
      rcases List.mem_append.mp hp with hm | hm
      · exact parseLines_host h _ es hpl p hm
      · simp only [List.mem_cons, List.mem_singleton] at hm
        rcases hm with hm | hm | hm
        · rw [hm, ruokStep_key]
          exact hostOf_braced _ _
        · rw [hm]
          exact hostOf_braced _ _
        · exact absurd hm (List.not_mem_nil p)

/-! ### Snapshot-level lemmas -/

theorem getMetricsL_cons (h : Str) (hs : List Str) (env : Str → TargetOutcome) :
    getMetricsL (h :: hs) env =
      match targetEntries h (env h), getMetricsL hs env with
      | some el, some rl => some (el.1 ++ rl.1, el.2 ++ rl.2)
      | _, _ => none := rfl

theorem getMetricsL_mem (hosts : List Str) (env : Str → TargetOutcome)
    (m : List (Str × Str)) (lg : List LogEvent)
    (hg : getMetricsL hosts env = some (m, lg)) (h : Str) (hm : h ∈ hosts) :
    ∃ e el, targetEntries h (env h) = some (e, el) := by
  induction hosts generalizing m lg with
  | nil => exact absurd hm (List.not_mem_nil h)
  | cons h0 hs ih =>
    rw [getMetricsL_cons] at hg
    rcases ht : targetEntries h0 (env h0) with _ | e0 <;> rw [ht] at hg
    · exact absurd hg (by simp)
    · rcases hr : getMetricsL hs env with _ | r0 <;> rw [hr] at hg
      · exact absurd hg (by simp)
      · rcases List.mem_cons.mp hm with hh | hh
        · subst hh
          exact ⟨e0.1, e0.2, ht⟩
        · exact ih r0.1 r0.2 (by rw [hr]) hh

theorem lookupLast_getMetrics_none (hosts : List Str) (env : Str → TargetOutcome)
    (m : List (Str × Str)) (lg : List LogEvent)
    (hg : getMetricsL hosts env = some (m, lg)) (k : Str)
    (hk : ∀ h ∈ hosts, hostOf k ≠ some h) : lookupLast m k = none := by
  induction hosts generalizing m lg with
  | nil =>
    rw [getMetricsL] at hg
    simp only [Option.some.injEq, Prod.mk.injEq] at hg
    rw [← hg.1]
    rfl
  | cons h0 hs ih =>
    rw [getMetricsL_cons] at hg
    rcases ht : targetEntries h0 (env h0) with _ | e0 <;> rw [ht] at hg
    · exact absurd hg (by simp)
    · rcases hr : getMetricsL hs env with _ | r0 <;> rw [hr] at hg
      · exact absurd hg (by simp)
      · simp only [Option.some.injEq, Prod.mk.injEq] at hg
        rw [← hg.1, lookupLast_append,
          lookupLast_eq_none e0.1 h0 k
            (targetEntries_host h0 (env h0) e0.1 e0.2 (by rw [ht])) 
            (hk h0 (List.mem_cons_self h0 hs)),
          ih r0.1 r0.2 (by rw [hr]) (fun h hh => hk h (List.mem_cons_of_mem h0 hh))]
        rfl

theorem lookupLast_getMetrics_block (hosts : List Str) (env : Str → TargetOutcome)
    (m : List (Str × Str)) (lg : List LogEvent)
    (hg : getMetricsL hosts env = some (m, lg)) (hnd : hosts.Nodup) (h : Str)
    (hm : h ∈ hosts) (e : List (Str × Str)) (el : List LogEvent)
    (he : targetEntries h (env h) = some (e, el)) (k : Str)
    (hk : hostOf k = some h) : lookupLast m k = lookupLast e k := by
  induction hosts generalizing m lg with
  | nil => exact absurd hm (List.not_mem_nil h)
  | cons h0 hs ih =>
    rw [getMetricsL_cons] at hg
    rcases ht : targetEntries h0 (env h0) with _ | e0 <;> rw [ht] at hg
    · exact absurd hg (by simp)
    · rcases hr : getMetricsL hs env with _ | r0 <;> rw [hr] at hg
      · exact absurd hg (by simp)
      · simp only [Option.some.injEq, Prod.mk.injEq] at hg
        rw [← hg.1, lookupLast_append]
        rcases List.mem_cons.mp hm with hh | hh
        · subst hh
          rw [ht] at he
          simp only [Option.some.injEq] at he
          have hnotin : ∀ hx ∈ hs, hostOf k ≠ some hx := by
            intro hx hhx hbad
            rw [hk] at hbad
            simp only [Option.some.injEq] at hbad
            exact (List.nodup_cons.mp hnd).1 (hbad ▸ hhx)
          rw [lookupLast_getMetrics_none hs env r0.1 r0.2 (by rw [hr]) k hnotin,
            olast_none_right, he]
        · have hne : h0 ≠ h := by
            intro hbad
            exact (List.nodup_cons.mp hnd).1 (hbad ▸ hh)
          rw [lookupLast_eq_none e0.1 h0 k
              (targetEntries_host h0 (env h0) e0.1 e0.2 (by rw [ht]))
              (by rw [hk]; simp only [ne_eq, Option.some.injEq]; exact fun x => hne x.symm),
            ih r0.1 r0.2 (by rw [hr]) (List.nodup_cons.mp hnd).2 hh]
          cases lookupLast e k <;> rfl

/-! ### Per-branch value lemmas -/

theorem braced_inj_name (n1 n2 h : Str) (he : braced n1 h = braced n2 h) : n1 = n2 := by
  rw [braced, braced] at he
  exact List.append_cancel_right (List.append_cancel_right he)

theorem leader_ne_up (h : Str) : braced leaderName h ≠ braced upName h := by
  intro hx
  exact absurd (braced_inj_name _ _ _ hx) (by decide)

theorem ruok_ne_up (h : Str) : braced ruokName h ≠ braced upName h := by
  intro hx
  exact absurd (braced_inj_name _ _ _ hx) (by decide)

theorem up_ne_ruok (h : Str) : braced upName h ≠ braced ruokName h := by
  intro hx
  exact absurd (braced_inj_name _ _ _ hx) (by decide)

theorem lookupLast_nil (k : Str) : lookupLast [] k = none := rfl

theorem lookupLast_single (p : Str × Str) (k : Str) :
    lookupLast [p] k = if p.1 = k then some p.2 else none := by
  rw [lookupLast_cons, lookupLast_nil, olast_none_right]

/-- in every branch where the target resolves, the final `zk_up` write the
block holds is `upVal` -/
theorem lookupLast_block_up (h : Str) (o : TargetOutcome) (e : List (Str × Str))
    (el : List LogEvent) (he : targetEntries h o = some (e, el))
    (hres : o.resolves = true) :
    lookupLast e (braced upName h) = some (upVal o) := by
  rw [targetEntries, if_neg (by rw [hres]; simp)] at he
  split_ifs at he with h2 h3 h4
  · simp only [Option.some.injEq, Prod.mk.injEq] at he
    rw [← he.1, lookupLast_single, if_pos rfl, upVal, if_pos h2]
  · simp only [Option.some.injEq, Prod.mk.injEq] at he
    rw [← he.1, lookupLast_cons, lookupLast_single, if_neg (leader_ne_up h),
      if_pos rfl, upVal, if_neg h2, if_pos h3]
    rfl
  · simp only [Option.some.injEq, Prod.mk.injEq] at he
    rw [← he.1, lookupLast_single, if_pos rfl, upVal, if_neg h2, if_neg h3, if_pos h4]
  · rcases hpl : parseLines h (splitOnChar '\n' o.mntrResp) with _ | es <;> rw [hpl] at he
    · exact absurd he (by simp)
    · simp only [Option.some.injEq, Prod.mk.injEq] at he
      rw [← he.1, lookupLast_append, lookupLast_cons, lookupLast_single, if_pos rfl,
        if_neg (by rw [ruokStep_key]; exact ruok_ne_up h), upVal, if_neg h2, if_neg h3,
        if_neg h4]
      rfl

theorem ruokStep_val (h : Str) (o : TargetOutcome) :
    (ruokStep h o).1.2
      = if o.ruokConnects = true ∧ o.ruokResp = imokStr then s1 else s0 := by
  rw [ruokStep]
  split_ifs with h1 h2 h3 h4 <;> simp_all

theorem lookupLast_block_ruok (h : Str) (o : TargetOutcome) (e : List (Str × Str))
    (el : List LogEvent) (he : targetEntries h o = some (e, el))
    (hres : o.resolves = true) (hcon : o.connects = true)
    (hns : firstLine o.mntrResp ≠ notServingMsg)
    (hwl : containsSub cmdSffx (firstLine o.mntrResp) = false) :
    lookupLast e (braced ruokName h) = some ((ruokStep h o).1.2) := by
  rw [targetEntries, if_neg (by rw [hres]; simp), if_neg (by rw [hcon]; simp),
    if_neg hns, if_neg (by rw [hwl]; simp)] at he
  rcases hpl : parseLines h (splitOnChar '\n' o.mntrResp) with _ | es <;> rw [hpl] at he
  · exact absurd he (by simp)
  · simp only [Option.some.injEq, Prod.mk.injEq] at he
    rw [← he.1, lookupLast_append, lookupLast_cons, lookupLast_single,
      if_neg (up_ne_ruok h), if_pos (ruokStep_key h o)]
    rfl

theorem splitOnChar_ne_nil (sep : Char) (s : Str) : splitOnChar sep s ≠ [] := by
  cases s with
  | nil => simp [splitOnChar]
  | cons c rest =>
    rw [splitOnChar]
    rcases splitOnChar sep rest with _ | ⟨t, ts⟩ <;> split_ifs <;> simp

theorem processLine_nil (h : Str) : processLine h [] = some [] := by
  rw [processLine_eq h [] [] [] rfl, lineBranches.eq_def,
    if_neg (by decide), if_neg (by decide), if_neg (by decide), if_pos rfl]

theorem takeDigits_cons (c : Char) (rest : Str) :
    takeDigits (c :: rest)
      = if isDigitCh c then (c :: (takeDigits rest).1, (takeDigits rest).2)
        else ([], c :: rest) := rfl

theorem takeDigits_split (d r : Str) (hd : allDigits d = true) (hr : headNonDigit r = true) :
    takeDigits (d ++ r) = (d, r) := by
  induction d with
  | nil =>
    cases r with
    | nil => rfl
    | cons c t =>
      have hc : isDigitCh c = false := by
        rw [headNonDigit] at hr
        cases hx : isDigitCh c
        · rfl
        · rw [hx] at hr
          exact absurd hr (by decide)
      rw [List.nil_append, takeDigits_cons, if_neg (by rw [hc]; simp)]
  | cons c d ih =>
    rw [allDigits, List.all_cons, Bool.and_eq_true] at hd
    rw [List.cons_append, takeDigits_cons, if_pos hd.1, ih hd.2]

theorem headNonDigit_dot (x : Str) : headNonDigit ('.' :: x) = true := rfl

theorem semverCap_pos (d1 d2 d3 r : Str)
    (hd1 : allDigits d1 = true) (hn1 : d1 ≠ [])
    (hd2 : allDigits d2 = true) (hn2 : d2 ≠ [])
    (hd3 : allDigits d3 = true) (hn3 : d3 ≠ [])
    (hr : headNonDigit r = true) (hnl : r.contains '\n' = false) :
    semverCap (d1 ++ '.' :: (d2 ++ '.' :: (d3 ++ r)))
      = some (d1 ++ '.' :: (d2 ++ '.' :: d3)) := by
  have e1 : takeDigits (d1 ++ '.' :: (d2 ++ '.' :: (d3 ++ r)))
      = (d1, '.' :: (d2 ++ '.' :: (d3 ++ r))) :=
    takeDigits_split d1 _ hd1 (headNonDigit_dot _)
  have e2 : takeDigits (d2 ++ '.' :: (d3 ++ r)) = (d2, '.' :: (d3 ++ r)) :=
    takeDigits_split d2 _ hd2 (headNonDigit_dot _)
  have e3 : takeDigits (d3 ++ r) = (d3, r) := takeDigits_split d3 r hd3 hr
  rw [semverCap, e1]
  dsimp only
  rw [if_neg hn1]
  split
  · rename_i r2 heq
    injection heq with heq2 heqt
    subst heqt
    rw [e2]
    dsimp only
    rw [if_neg hn2]
    split
    · rename_i r4 heq3
      injection heq3 with heq4 heqt2
      subst heqt2
      rw [e3]
      dsimp only
      rw [if_neg hn3, if_neg (by rw [hnl]; simp)]
      simp [List.append_assoc]
    · rename_i hx
      exact absurd rfl (hx _)
  · rename_i hx
    exact absurd rfl (hx _)

/-! ### Claim theorems -/

/-- C2: when the primary response's first line is exactly the non-serving
message, the target loop emits for that target exactly the two entries
`zk_up{host}="1"` and `zk_server_leader{host}="1"`, no other keys (in
particular no `zk_ruok` entry, since the liveness probe is skipped), and
performs no further parsing of the response. -/
theorem C2_not_serving (h : Str) (o : TargetOutcome)
    (hres : o.resolves = true) (hcon : o.connects = true)
    (hns : firstLine o.mntrResp = notServingMsg) :
    targetEntries h o
      = some ([(braced upName h, s1), (braced leaderName h, s1)], []) := by
  rw [targetEntries, if_neg (by rw [hres]; simp), if_neg (by rw [hcon]; simp), if_pos hns]

theorem C2_witness :
    targetEntries hostH oNotServing
      = some ([(braced upName hostH, s1), (braced leaderName hostH, s1)], []) :=
  C2_not_serving hostH oNotServing rfl rfl (by decide)

/-- C3: when the primary response's first line contains the whitelist
rejection suffix, the target loop emits only `zk_up{host}="0"`, logs a
warning naming the rejected command `mntr` and the host label, and skips
all other parsing and the liveness probe. -/
theorem C3_whitelist_rejected (h : Str) (o : TargetOutcome)
    (hres : o.resolves = true) (hcon : o.connects = true)
    (hwl : containsSub cmdSffx (firstLine o.mntrResp) = true) :
    targetEntries h o
      = some ([(braced upName h, s0)], [LogEvent.notAllowed mntrCmd (hostLabel h)]) := by
  have hns : firstLine o.mntrResp ≠ notServingMsg := by
    intro hx
    rw [hx] at hwl
    exact absurd hwl (by decide)
  rw [targetEntries, if_neg (by rw [hres]; simp), if_neg (by rw [hcon]; simp),
    if_neg hns, if_pos hwl]

theorem C3_witness :
    targetEntries hostH oWhitelist
      = some ([(braced upName hostH, s0)], [LogEvent.notAllowed mntrCmd (hostLabel hostH)]) :=
  C3_whitelist_rejected hostH oWhitelist rfl rfl (by decide)

/-- C10: when the primary connection succeeds but the `mntr` response is
the empty string (the shape produced when the post-connect write or read
fails), the target still gets `zk_up{host}="1"`, no statistics entries are
parsed, and the `ruok` probe is still issued so a `zk_ruok` entry is
present. -/
theorem C10_empty_primary (h : Str) (o : TargetOutcome)
    (hres : o.resolves = true) (hcon : o.connects = true) (hmr : o.mntrResp = []) :
    targetEntries h o
      = some ([(ruokStep h o).1, (braced upName h, s1)], (ruokStep h o).2)
    ∧ (ruokStep h o).1.1 = braced ruokName h
    ∧ lookupLast [(ruokStep h o).1, (braced upName h, s1)] (braced upName h) = some s1 := by
  refine ⟨?_, ruokStep_key h o, ?_⟩
  · rw [targetEntries, if_neg (by rw [hres]; simp), if_neg (by rw [hcon]; simp), hmr,
      if_neg (by decide), if_neg (by decide)]
    have hp : parseLines h (splitOnChar '\n' ([] : Str)) = some [] := by
      have e : splitOnChar '\n' ([] : Str) = [[]] := rfl
      rw [e, parseLines, processLine_nil, parseLines]
      rfl
    rw [hp]
    simp
  · rw [lookupLast_cons, lookupLast_single, if_pos rfl]
    rfl

theorem C10_witness :
    (targetEntries hostH oEmpty
      = some ([(ruokStep hostH oEmpty).1, (braced upName hostH, s1)], (ruokStep hostH oEmpty).2))
    ∧ (ruokStep hostH oEmpty).1.1 = braced ruokName hostH
    ∧ lookupLast [(ruokStep hostH oEmpty).1, (braced upName hostH, s1)]
        (braced upName hostH) = some s1 :=
  C10_empty_primary hostH oEmpty rfl rfl rfl

/-- C5 counterexample: on the line `a.b c d`, the code emits the key
`a.b{...}` (the dot is NOT replaced by an underscore, only hyphens are)
with value `c` (the second token only, not the remainder `c d` of the line
after the first space), contradicting the claim on both counts. -/
theorem C5_counterexample :
    processLine hostH lineDotted = some [(braced dotKey hostH, cTok)]
    ∧ braced dotKey hostH ≠ braced underKey hostH
    ∧ cTok ≠ cdTok := by decide

/-- C5 (amended): for a line whose key is none of the three special keys
and not empty, the line (tabs normalized to spaces) is split on every
space; the emitted entry is the key with every hyphen (and only hyphens —
dots are kept) replaced by an underscore, labeled with the host, mapped to
the second token of the line (any text after a further space is dropped). -/
theorem C5_default_line (h l k v : Str) (rest : List Str)
    (hsp : splitOnChar ' ' (replaceTabs l) = k :: v :: rest)
    (h1 : k ≠ serverStateKey) (h2 : k ≠ versionName) (h3 : k ≠ peerStateName)
    (h4 : k ≠ []) :
    processLine h l = some [(braced (hyf2us k) h, v)] := by
  rw [processLine_eq h l k (v :: rest) hsp, lineBranches.eq_def,
    if_neg h1, if_neg h2, if_neg h3, if_neg h4]

theorem C5_witness :
    processLine hostH hyLine = some [(braced (hyf2us hyKey) hostH, s1)] :=
  C5_default_line hostH hyLine hyKey s1 [twoTok] (by decide) (by decide) (by decide)
    (by decide) (by decide)

/-- C6: for every `zk_version` line, the emitted metric is
`zk_version{host,version="<v>"}="1"` where `<v>` is the leading
semantic-version prefix of the value token (digits, dot, digits, dot,
digits, maximal digit runs) when the anchored pattern matches — the
claim's example line yields the label `3.4.10` — and the raw value
unchanged when it does not match. -/
theorem C6_version_extraction :
    (∀ (h l v : Str) (rest : List Str),
        splitOnChar ' ' (replaceTabs l) = versionName :: v :: rest →
        processLine h l = some [(keyVersion h (extractVersion v), s1)])
    ∧ processLine hostH verLine = some [(keyVersion hostH verCaptured, s1)]
    ∧ (∀ d1 d2 d3 r : Str,
        allDigits d1 = true → d1 ≠ [] → allDigits d2 = true → d2 ≠ [] →
        allDigits d3 = true → d3 ≠ [] → headNonDigit r = true →
        r.contains '\n' = false →
        extractVersion (d1 ++ '.' :: (d2 ++ '.' :: (d3 ++ r)))
          = d1 ++ '.' :: (d2 ++ '.' :: d3))
    ∧ (∀ v : Str, semverCap v = none → extractVersion v = v) := by
  refine ⟨?_, by decide, ?_, ?_⟩
  · intro h l v rest hsp
    rw [processLine_eq h l versionName (v :: rest) hsp, lineBranches.eq_def,
      if_neg (by decide), if_pos rfl]
  · intro d1 d2 d3 r hd1 hn1 hd2 hn2 hd3 hn3 hr hnl
    rw [extractVersion, semverCap_pos d1 d2 d3 r hd1 hn1 hd2 hn2 hd3 hn3 hr hnl]
    rfl
  · intro v hv
    rw [extractVersion, hv]
    rfl

theorem C6_witness :
    processLine hostH verLine = some [(keyVersion hostH (extractVersion verTok), s1)] :=
  C6_version_extraction.1 hostH verLine verTok verRest (by decide)

/-- C9 counterexample: on the single-token line `foo` the per-line parser
performs the out-of-bounds access `kv[1]` (modelled as `none`), so the
parsing is not total. -/
theorem C9_counterexample : processLine hostH fooLine = none := by decide

/-- C9 (amended): the per-line parser accesses `kv[1]` for every line
whose first token is non-empty; it fails (Go panic via out-of-bounds
index) exactly on lines that, after tab normalization and space
splitting, consist of a single non-empty token, and it is total on all
other lines. -/
theorem C9_parse_totality (h l : Str) :
    processLine h l = none
      ↔ ∃ k : Str, splitOnChar ' ' (replaceTabs l) = [k] ∧ k ≠ [] := by
  constructor
  · intro hp
    rcases hsp : splitOnChar ' ' (replaceTabs l) with _ | ⟨k, rest⟩
    · exact absurd hsp (splitOnChar_ne_nil ' ' _)
    · rw [processLine_eq h l k rest hsp, lineBranches.eq_def] at hp
      split_ifs at hp with h1 h2 h3 h4
      · cases rest with
        | nil => exact ⟨k, rfl, by rw [h1]; decide⟩
        | cons v r => exact Option.noConfusion hp
      · cases rest with
        | nil => exact ⟨k, rfl, by rw [h2]; decide⟩
        | cons v r => exact Option.noConfusion hp
      · cases rest with
        | nil => exact ⟨k, rfl, by rw [h3]; decide⟩
        | cons v r => exact Option.noConfusion hp
      · cases rest with
        | nil => exact ⟨k, rfl, h4⟩
        | cons v r => exact Option.noConfusion hp
  · rintro ⟨k, hsp, hk⟩
    rw [processLine_eq h l k [] hsp, lineBranches.eq_def]
    split_ifs with h1 h2 h3
    · rfl
    · rfl
    · rfl
    · rfl

theorem C9_witness : processLine hostH zkXyzLine = none :=
  (C9_parse_totality hostH zkXyzLine).mpr ⟨zkXyzLine, by decide, by decide⟩

/-- C1 counterexample: a configured target whose address resolution fails
contributes no `zk_up` entry at all — the snapshot of a one-target
configuration with failing resolution is empty, so the claim's "including
targets whose address resolution fails" is false. -/
theorem C1_counterexample :
    getMetricsL [hostA] envResolveFail = some ([], [LogEvent.resolveFail hostA])
    ∧ lookupLast [] (braced upName hostA) = none := by decide

/-- C1 (amended): every configured target whose address RESOLVES yields
exactly one `zk_up{host}` entry in the snapshot, with the value `"1"` when
the primary probe succeeded (connected and not whitelist-rejected) and
`"0"` otherwise; a target whose resolution fails yields no `zk_up` entry
at all. -/
theorem C1_up_entry (hosts : List Str) (env : Str → TargetOutcome)
    (m : List (Str × Str)) (lg : List LogEvent)
    (hg : getMetricsL hosts env = some (m, lg)) (hnd : hosts.Nodup)
    (h : Str) (hm : h ∈ hosts) :
    ((env h).resolves = true →
      lookupLast m (braced upName h) = some (upVal (env h)))
    ∧ ((env h).resolves = false →
      lookupLast m (braced upName h) = none) := by
  obtain ⟨e, el, he⟩ := getMetricsL_mem hosts env m lg hg h hm
  have hb := lookupLast_getMetrics_block hosts env m lg hg hnd h hm e el he
    (braced upName h) (hostOf_braced upName h)
  constructor
  · intro hres
    rw [hb]
    exact lookupLast_block_up h (env h) e el he hres
  · intro hres
    rw [hb]
    rw [targetEntries, if_pos hres] at he
    simp only [Option.some.injEq, Prod.mk.injEq] at he
    rw [← he.1]
    rfl

theorem C1_witness :
    lookupLast snapC1.1 (braced upName hostA) = some (upVal (envGood hostA)) :=
  (C1_up_entry [hostA] envGood snapC1.1 snapC1.2 (by decide) (by decide) hostA
    (by decide)).1 (by decide)

/-- C4: after a successful, non-short-circuited primary probe, the
snapshot's `zk_ruok{host}` value is `"1"` exactly when the second probe
connected and its full response equals `imok`, and `"0"` otherwise
(including connection failure of the second probe); in all these cases the
`zk_up{host}` value for the target remains `"1"` — the liveness outcome
never overwrites it. -/
theorem C4_liveness (hosts : List Str) (env : Str → TargetOutcome)
    (m : List (Str × Str)) (lg : List LogEvent)
    (hg : getMetricsL hosts env = some (m, lg)) (hnd : hosts.Nodup)
    (h : Str) (hm : h ∈ hosts)
    (hres : (env h).resolves = true) (hcon : (env h).connects = true)
    (hns : firstLine (env h).mntrResp ≠ notServingMsg)
    (hwl : containsSub cmdSffx (firstLine (env h).mntrResp) = false) :
    lookupLast m (braced ruokName h)
      = some (if (env h).ruokConnects = true ∧ (env h).ruokResp = imokStr
          then s1 else s0)
    ∧ lookupLast m (braced upName h) = some s1 := by
  obtain ⟨e, el, he⟩ := getMetricsL_mem hosts env m lg hg h hm
  constructor
  · rw [lookupLast_getMetrics_block hosts env m lg hg hnd h hm e el he
        (braced ruokName h) (hostOf_braced ruokName h),
      lookupLast_block_ruok h (env h) e el he hres hcon hns hwl, ruokStep_val]
  · rw [lookupLast_getMetrics_block hosts env m lg hg hnd h hm e el he
        (braced upName h) (hostOf_braced upName h),
      lookupLast_block_up h (env h) e el he hres, upVal,
      if_neg (by rw [hcon]; simp), if_neg hns, if_neg (by rw [hwl]; simp)]

theorem C4_witness :
    lookupLast snapC1.1 (braced ruokName hostA)
      = some (if (envGood hostA).ruokConnects = true ∧ (envGood hostA).ruokResp = imokStr
          then s1 else s0)
    ∧ lookupLast snapC1.1 (braced upName hostA) = some s1 :=
  C4_liveness [hostA] envGood snapC1.1 snapC1.2 (by decide) (by decide) hostA (by decide)
    (by decide) (by decide) (by decide) (by decide)

/-- C7: errors are target-local — if two environments agree on the network
outcome of one target, then for every key belonging to that target the two
snapshots agree, no matter how the other targets behave (resolution,
connection, protocol or I/O failures elsewhere never remove, alter or
prevent this target's entries, and processing always continues past a
failed target). -/
theorem C7_isolation (hosts : List Str) (env1 env2 : Str → TargetOutcome)
    (hshared : Str) (henv : env1 hshared = env2 hshared)
    (m1 m2 : List (Str × Str)) (lg1 lg2 : List LogEvent)
    (hg1 : getMetricsL hosts env1 = some (m1, lg1))
    (hg2 : getMetricsL hosts env2 = some (m2, lg2)) :
    ∀ k : Str, hostOf k = some hshared → lookupLast m1 k = lookupLast m2 k := by
  induction hosts generalizing m1 m2 lg1 lg2 with
  | nil =>
    rw [getMetricsL] at hg1 hg2
    simp only [Option.some.injEq, Prod.mk.injEq] at hg1 hg2
    intro k hk
    rw [← hg1.1, ← hg2.1]
  | cons h0 hs ih =>
    rw [getMetricsL_cons] at hg1 hg2
    rcases ht1 : targetEntries h0 (env1 h0) with _ | e1 <;> rw [ht1] at hg1
    · exact absurd hg1 (by simp)
    rcases hr1 : getMetricsL hs env1 with _ | r1 <;> rw [hr1] at hg1
    · exact absurd hg1 (by simp)
    rcases ht2 : targetEntries h0 (env2 h0) with _ | e2 <;> rw [ht2] at hg2
    · exact absurd hg2 (by simp)
    rcases hr2 : getMetricsL hs env2 with _ | r2 <;> rw [hr2] at hg2
    · exact absurd hg2 (by simp)
    simp only [Option.some.injEq, Prod.mk.injEq] at hg1 hg2
    intro k hk
    rw [← hg1.1, ← hg2.1, lookupLast_append, lookupLast_append]
    have hrs : lookupLast r1.1 k = lookupLast r2.1 k :=
      ih r1.1 r2.1 r1.2 r2.2 (by rw [hr1]) (by rw [hr2]) k hk
    by_cases hh : h0 = hshared
    · subst hh
      rw [henv] at ht1
      rw [ht1] at ht2
      injection ht2 with h12
      rw [h12, hrs]
    · have hne : hostOf k ≠ some h0 := by
        rw [hk]
        intro hx
        injection hx with hx2
        exact hh hx2.symm
      rw [lookupLast_eq_none e1.1 h0 k
          (targetEntries_host h0 (env1 h0) e1.1 e1.2 (by rw [ht1])) hne,
        lookupLast_eq_none e2.1 h0 k
          (targetEntries_host h0 (env2 h0) e2.1 e2.2 (by rw [ht2])) hne,
        hrs]

theorem C7_witness :
    lookupLast snap71.1 (braced upName hostA) = lookupLast snap72.1 (braced upName hostA) :=
  C7_isolation [hostA, hostB] envGood envMixed hostA (by decide) snap71.1 snap72.1
    snap71.2 snap72.2 (by decide) (by decide) (braced upName hostA) (by decide)

/-- C8: for pairwise-distinct hosts and fixed per-host outcomes, the
snapshot's key-to-value mapping is the same for every permutation of the
host list — each target's keys carry its host label, so the per-target
blocks are disjoint and the merge is order-independent. -/
theorem C8_order_invariance (hosts hosts2 : List Str) (env : Str → TargetOutcome)
    (m1 m2 : List (Str × Str)) (lg1 lg2 : List LogEvent)
    (hnd : hosts.Nodup) (hperm : hosts2.Perm hosts)
    (hg1 : getMetricsL hosts env = some (m1, lg1))
    (hg2 : getMetricsL hosts2 env = some (m2, lg2)) :
    ∀ k : Str, lookupLast m1 k = lookupLast m2 k := by
  intro k
  have hnd2 : hosts2.Nodup := hperm.nodup_iff.mpr hnd
  rcases hko : hostOf k with _ | hx
  · rw [lookupLast_getMetrics_none hosts env m1 lg1 hg1 k
        (by intro h1 _ hbad; rw [hko] at hbad; exact Option.noConfusion hbad),
      lookupLast_getMetrics_none hosts2 env m2 lg2 hg2 k
        (by intro h1 _ hbad; rw [hko] at hbad; exact Option.noConfusion hbad)]
  · by_cases hmem : hx ∈ hosts
    · obtain ⟨e, el, he⟩ := getMetricsL_mem hosts env m1 lg1 hg1 hx hmem
      rw [lookupLast_getMetrics_block hosts env m1 lg1 hg1 hnd hx hmem e el he k hko,
        lookupLast_getMetrics_block hosts2 env m2 lg2 hg2 hnd2 hx
          (hperm.mem_iff.mpr hmem) e el he k hko]
    · rw [lookupLast_getMetrics_none hosts env m1 lg1 hg1 k
          (by intro h1 hh1 hbad
              rw [hko] at hbad
              injection hbad with hb
              exact hmem (hb ▸ hh1)),
        lookupLast_getMetrics_none hosts2 env m2 lg2 hg2 k
          (by intro h1 hh1 hbad
              rw [hko] at hbad
              injection hbad with hb
              exact hmem (hb ▸ hperm.mem_iff.mp hh1))]

theorem C8_witness :
    lookupLast snap71.1 (braced upName hostA) = lookupLast snap82.1 (braced upName hostA) :=
  C8_order_invariance [hostA, hostB] [hostB, hostA] envGood snap71.1 snap82.1
    snap71.2 snap82.2 (by decide) (List.Perm.swap hostA hostB []) (by decide) (by decide)
    (braced upName hostA)
